import Mathlib

/-!
Shallow embedding of the `mlb_war_clustering` notebook
(`WAR_Analysis_and_Player_Clustering.ipynb`).

The notebook is a five stage pipeline over a pandas DataFrame:
loading with column-name normalization, dropping rows with missing
values in ten feature columns or the target `war`, a seeded
train/test split plus ordinary least squares, standardization, a
silhouette search over K = 2..9 with K-Means, PCA projection columns,
and a per-cluster report.

Numeric cells are modelled as exact rationals (the ideal arithmetic
the analysis intends; the notebook computes with floats).  Library
calls (pandas, sklearn, numpy) are not part of the repository: each
is embedded as an explicit deterministic Lean function whose doc
comment states which documented library behaviour it models and, where
an exact real-number operation (a square root, an eigendecomposition)
has no rational counterpart, which rational stand-in is used.  No
claim below depends on the numeric value of such a stand-in; the
claims concern control flow, shapes, ordering, selection and error
behaviour, which are modelled exactly.
-/

namespace MLB

/-- A table cell: missing (pandas NaN), a rational number, or a string. -/
inductive Cell where
  | na : Cell
  | num : ℚ → Cell
  | str : String → Cell
deriving DecidableEq, Repr, Inhabited

/-- True exactly on a missing cell (pandas `isna`). -/
def Cell.isna : Cell → Bool
  | .na => true
  | _ => false

/-- Numeric value of a cell; non-numeric cells read as 0 (the notebook's
numeric columns are parsed as floats by `read_csv`, and every cell the
pipeline reads numerically is guaranteed non-missing by `dropna`). -/
def Cell.q : Cell → ℚ
  | .num v => v
  | _ => 0

/-- Lookup of a column value in an association list of cells; a column
absent from the row reads as missing, like pandas reindexing. -/
def getCell : List (String × Cell) → String → Cell
  | [], _ => .na
  | (k, v) :: rest, c => if k = c then v else getCell rest c

/-- One row of the in-memory table, column name to cell. -/
structure Row where
  cells : List (String × Cell)
deriving DecidableEq, Repr, Inhabited

/-- Read one column of a row. -/
def Row.get (r : Row) (c : String) : Cell := getCell r.cells c

/-- The in-memory table: a list of rows in file order. -/
abbrev Table := List Row

/-! ### Loader: column-name normalization

The notebook normalizes the header with
`df.columns.str.strip().str.lower().str.replace(' ', '_')
.str.replace('+', 'plus').str.replace('%', 'percent')`.
Column names are modelled as lists of Unicode code points
(32 = space, 43 = plus, 37 = percent, 95 = underscore;
65..90 are the uppercase ASCII letters that `str.lower` maps
into 97..122). -/

/-- Whitespace code points stripped by Python `str.strip`
(space, tab, LF, VT, FF, CR cover the ASCII fragment). -/
def pyWhitespace (c : Nat) : Bool :=
  c = 32 || c = 9 || c = 10 || c = 11 || c = 12 || c = 13

/-- Python `str.strip`: drop leading and trailing whitespace. -/
def pyStrip (s : List Nat) : List Nat :=
  ((s.dropWhile pyWhitespace).reverse.dropWhile pyWhitespace).reverse

/-- Python `str.lower` on the ASCII fragment: map an uppercase letter
code point to its lowercase counterpart 32 places up. -/
def pyLowerChar (c : Nat) : Nat :=
  if 65 ≤ c ∧ c ≤ 90 then c + 32 else c

/-- Single-character string replacement with a (possibly longer)
replacement string, as `str.replace` with a one-character pattern:
every occurrence is expanded, other characters pass through. -/
def replaceWith (a : Nat) (w : List Nat) : List Nat → List Nat
  | [] => []
  | c :: rest => (if c = a then w else [c]) ++ replaceWith a w rest

/-- Code points of the replacement token for a plus sign. -/
def plusToken : List Nat := [112, 108, 117, 115]

/-- Code points of the replacement token for a percent sign. -/
def percentToken : List Nat := [112, 101, 114, 99, 101, 110, 116]

/-- The Loader's column-name normalization: strip surrounding
whitespace, lowercase, spaces to underscores, then expand plus
and percent signs into their word tokens, in the notebook's order. -/
def normalizeName (s : List Nat) : List Nat :=
  replaceWith 37 percentToken
    (replaceWith 43 plusToken
      (((pyStrip s).map pyLowerChar).map (fun c => if c = 32 then 95 else c)))

/-! ### Feature Preparer -/

/-- The fixed ordered list of the ten feature columns, as in the
notebook's `features` list. -/
def features : List String :=
  ["on_base_percent", "slg_percent", "isolated_power",
   "k_percent", "bb_percent", "exit_velocity_avg",
   "sprint_speed", "wrcplus", "f_fielding", "spd"]

/-- Predicate of `df.dropna(subset=features + ['war'])`: a row is kept
exactly when none of the ten feature cells nor the target cell is
missing. -/
def keepRow (r : Row) : Bool :=
  (features ++ ["war"]).all (fun c => !(r.get c).isna)

/-- The Feature Preparer's row filter: `df = df.dropna(subset=features
+ ['war'])`, keeping the original row order. -/
def prepare (t : Table) : Table := t.filter keepRow

/-- The feature matrix `X = df[features]`: one row of ten rationals per
retained table row, in table order. -/
def Xof (t : Table) : List (List ℚ) :=
  t.map (fun r => features.map (fun c => (r.get c).q))

/-- The target vector `y = df['war']`. -/
def yof (t : Table) : List ℚ := t.map (fun r => (r.get "war").q)

/-! ### Shared linear-algebra helpers -/

/-- Dot product of two rational vectors (extra entries of the longer
vector are ignored; all uses are on equal-length vectors). -/
def dot (a b : List ℚ) : ℚ := ((a.zip b).map (fun p => p.1 * p.2)).sum

/-- Number of columns of a row-major matrix (length of its first row). -/
def widthOf (m : List (List ℚ)) : Nat := (m.headD []).length

/-- Column list of a row-major matrix (entries past a short row read
as 0; all uses are on width-uniform matrices). -/
def transposeL (m : List (List ℚ)) : List (List ℚ) :=
  (List.range (widthOf m)).map (fun j => m.map (fun r => r.getD j 0))

/-- Arithmetic mean of a list of rationals (0 on the empty list, by the
rational convention that division by zero is zero). -/
def mean (xs : List ℚ) : ℚ := xs.sum / xs.length

/-- Population variance (denominator `n`), the moment sklearn's
`StandardScaler` divides by. -/
def popVar (xs : List ℚ) : ℚ :=
  (xs.map (fun x => (x - mean xs) ^ 2)).sum / xs.length

/-- Exact rational square root when the radicand is a ratio of perfect
squares, and 1 otherwise.  Stand-in for the library's real square
root: every claim-relevant evaluation has a perfect-square radicand,
and the standardization theorems quantify over the exact root through
the hypothesis `s * s = popVar xs` instead of this function. -/
def ratSqrt (q : ℚ) : ℚ :=
  let n := q.num.toNat
  let d := q.den
  if Nat.sqrt n * Nat.sqrt n = n ∧ Nat.sqrt d * Nat.sqrt d = d ∧ 0 ≤ q.num then
    (Nat.sqrt n : ℚ) / (Nat.sqrt d : ℚ)
  else 1

/-- The scale `StandardScaler` divides a column by: the standard
deviation, except that a zero-variance column is scaled by 1 (the
scaler's documented guard against division by zero). -/
def stdOf (xs : List ℚ) : ℚ := if popVar xs = 0 then 1 else ratSqrt (popVar xs)

/-- Standardization of one column with an explicitly given scale `s`:
subtract the column mean, divide by `s`. -/
def scaleQ (xs : List ℚ) (s : ℚ) : List ℚ :=
  xs.map (fun x => (x - mean xs) / s)

/-- Per-column (mean, scale) statistics of `StandardScaler.fit`. -/
def colStats (X : List (List ℚ)) : List (ℚ × ℚ) :=
  (transposeL X).map (fun c => (mean c, stdOf c))

/-- `scaler.fit_transform(X)`: every row recentred and rescaled with
the column statistics computed over all rows of `X`. -/
def scaleMatrix (X : List (List ℚ)) : List (List ℚ) :=
  X.map (fun r => (r.zip (colStats X)).map (fun q => (q.1 - q.2.1) / q.2.2))

/-! ### Error taxonomy

The spec names the pipeline's failure classes; the notebook surfaces
them as the corresponding library `ValueError`s (empty train/test
split, zero samples for the scaler, too few samples for PCA or
K-Means, an invalid label count for the silhouette).  Those documented
library preconditions are embedded as `dataInsufficiency` errors; the
remaining constructors exist so that theorems can state which errors
the code can and cannot produce. -/

/-- The spec's error taxonomy. -/
inductive PipeErr where
  | fileAccess : PipeErr
  | parse : PipeErr
  | schema : PipeErr
  | dataInsufficiency : PipeErr
  | degenerateInput : PipeErr
deriving DecidableEq, Repr, Inhabited

/-! ### Regressor -/

/-- Linear congruential step, the deterministic pseudo-random source
standing in for NumPy's seeded `RandomState` stream. -/
def lcg (s : Nat) : Nat := (s * 1103515245 + 12345) % 2147483648

/-- Fisher-Yates shuffle driven by the seeded stream (fuel equals the
list length at every call site).  Models the seeded permutation
`train_test_split` draws; the claims depend only on its determinism
in the seed and the data size. -/
def fyShuffle : Nat → Nat → List Nat → List Nat
  | 0, _, l => l
  | fuel + 1, s, l =>
    if l = [] then []
    else
      let i := s % l.length
      l.getD i 0 :: fyShuffle fuel (lcg s) (l.eraseIdx i)

/-- `train_test_split(X, y, test_size=0.2, random_state=seed)` at the
index level: the test share is `ceil(n / 5)`; the library raises a
`ValueError` when the resulting train or test side would be empty,
modelled as `dataInsufficiency`; otherwise the seeded permutation of
`range n` is cut into (train indices, test indices). -/
def trainTestSplit (seed n : Nat) : Except PipeErr (List Nat × List Nat) :=
  let nTest := (n + 4) / 5
  let nTrain := n - nTest
  if nTest = 0 ∨ nTrain = 0 then .error .dataInsufficiency
  else
    let perm := fyShuffle n seed (List.range n)
    .ok (perm.drop nTest, perm.take nTest)

/-- Prepend the intercept column of ones to the design matrix, as
`LinearRegression(fit_intercept=True)` does internally. -/
def withIntercept (X : List (List ℚ)) : List (List ℚ) := X.map (fun r => 1 :: r)

/-- Eliminate one column of an augmented system: find a row with a
nonzero entry in column `j`, normalize it to a unit pivot, and cancel
that column from the remaining rows; `none` when the column is already
zero (a free variable, as happens on rank-deficient input). -/
def reduceCol (j : Nat) (rows : List (List ℚ)) : Option (List ℚ × List (List ℚ)) :=
  match rows.find? (fun r => decide (r.getD j 0 ≠ 0)) with
  | none => none
  | some piv =>
    let pr := piv.map (fun x => x / piv.getD j 0)
    some (pr, (rows.erase piv).map (fun r => r.zipWith (fun a b => a - r.getD j 0 * b) pr))

/-- Forward elimination over columns `j, j+1, ...` of an augmented
system with `p` unknowns (fuel equals `p` at the call site), returning
the pivot rows with their pivot columns. -/
def gaussElimAux : Nat → Nat → List (List ℚ) → List (Nat × List ℚ)
  | 0, _, _ => []
  | fuel + 1, j, rows =>
    match reduceCol j rows with
    | none => gaussElimAux fuel (j + 1) rows
    | some (pr, rest) => (j, pr) :: gaussElimAux fuel (j + 1) rest

/-- Back substitution: free variables stay 0, pivot variables are
solved from the echelon rows in reverse pivot order. -/
def backSub (p : Nat) (pivots : List (Nat × List ℚ)) : List ℚ :=
  pivots.reverse.foldl
    (fun beta pr => beta.set pr.1 (pr.2.getD p 0 - dot (pr.2.take p) beta))
    (List.replicate p 0)

/-- `LinearRegression().fit(X, y)` coefficient computation (intercept
first): solve the normal equations of the intercept-augmented design
by Gaussian elimination.  The normal equations are consistent for
every input, so elimination always returns a solution; on
rank-deficient input the free variables are set to 0 where the
library's LAPACK `lstsq` picks the minimum-norm solution - both
complete silently, raising no error, which is the behaviour the
claims turn on. -/
def lrFit (X : List (List ℚ)) (y : List ℚ) : List ℚ :=
  let A := withIntercept X
  let At := transposeL A
  let M := At.map (fun r => At.map (fun c => dot r c))
  let v := At.map (fun r => dot r y)
  let aug := (M.zip v).map (fun q => q.1 ++ [q.2])
  backSub At.length (gaussElimAux At.length 0 aug)

/-- Prediction of the fitted model on one feature row. -/
def predict (beta : List ℚ) (x : List ℚ) : ℚ := dot beta (1 :: x)

/-- `r2_score`: one minus residual over total sum of squares (on a
single test sample the library emits NaN with a warning and completes;
here the zero-denominator convention likewise completes). -/
def r2Score (yt yp : List ℚ) : ℚ :=
  1 - ((yt.zip yp).map (fun q => (q.1 - q.2) ^ 2)).sum /
      ((yt.map (fun v => (v - mean yt) ^ 2)).sum)

/-- `mean_squared_error`: the notebook prints its square root (RMSE),
an irrational no claim depends on; the mean squared error itself is
recorded. -/
def mseOf (yt yp : List ℚ) : ℚ :=
  ((yt.zip yp).map (fun q => (q.1 - q.2) ^ 2)).sum / yt.length

/-- Output of the Regressor stage: the split index sets, the fitted
coefficients (intercept first) and the test metrics. -/
structure RegOut where
  trainIdx : List Nat
  testIdx : List Nat
  coef : List ℚ
  r2 : ℚ
  mse : ℚ
deriving DecidableEq, Repr, Inhabited

/-- The Regressor stage: split with the fixed seed 42, fit ordinary
least squares on the training subset, evaluate on the held-out test
subset.  The only failure is the split's empty-side `ValueError`;
fitting itself performs no row-count or rank check. -/
def regressorSeeded (seed : Nat) (X : List (List ℚ)) (y : List ℚ) :
    Except PipeErr RegOut :=
  match trainTestSplit seed X.length with
  | .error e => .error e
  | .ok (tr, te) =>
    let Xtr := tr.map (fun i => X.getD i [])
    let ytr := tr.map (fun i => y.getD i 0)
    let Xte := te.map (fun i => X.getD i [])
    let yte := te.map (fun i => y.getD i 0)
    let beta := lrFit Xtr ytr
    let pred := Xte.map (predict beta)
    .ok ⟨tr, te, beta, r2Score yte pred, mseOf yte pred⟩

/-- The notebook's Regressor, seed fixed to 42 as in
`train_test_split(..., random_state=42)`. -/
def regressor (X : List (List ℚ)) (y : List ℚ) : Except PipeErr RegOut :=
  regressorSeeded 42 X y

/-! ### Clusterer -/

/-- Squared Euclidean distance between two points. -/
def dist2 (p q : List ℚ) : ℚ := ((p.zip q).map (fun a => (a.1 - a.2) ^ 2)).sum

/-- Index of the first centroid at minimal squared distance from `p`
(K-Means assignment; a tie keeps the earlier centroid). -/
def argminIdx (p : List ℚ) : List (List ℚ) → Nat
  | [] => 0
  | [_] => 0
  | c :: d :: t =>
    let j := argminIdx p (d :: t)
    if dist2 p c ≤ dist2 p ((d :: t).getD j []) then 0 else j + 1

/-- The points currently assigned label `i`. -/
def membersOf (pts : List (List ℚ)) (ls : List Nat) (i : Nat) : List (List ℚ) :=
  ((pts.zip ls).filter (fun q => q.2 = i)).map Prod.fst

/-- Componentwise mean of a nonempty group of points; an empty cluster
keeps its previous centroid (the library instead relocates it, a
repair no claim depends on). -/
def vecMean (g : List (List ℚ)) (fallback : List ℚ) : List ℚ :=
  match g with
  | [] => fallback
  | _ => (transposeL g).map mean

/-- One Lloyd centroid update. -/
def updateCentroids (pts : List (List ℚ)) (ls : List Nat)
    (cs : List (List ℚ)) : List (List ℚ) :=
  (List.range cs.length).map (fun i => vecMean (membersOf pts ls i) (cs.getD i []))

/-- Lloyd iteration: assign, update, stop when the centroids are
stable, with fuel 300 matching the library's `max_iter` default. -/
def lloyd (pts : List (List ℚ)) : Nat → List (List ℚ) → List Nat
  | 0, cs => pts.map (fun p => argminIdx p cs)
  | fuel + 1, cs =>
    let ls := pts.map (fun p => argminIdx p cs)
    let cs2 := updateCentroids pts ls cs
    if cs2 = cs then ls else lloyd pts fuel cs2

/-- Deterministic initial centroids: the first `k` distinct points.
Stand-in for `KMeans(random_state=42)`'s seeded k-means++ draw, which
is likewise a fixed deterministic function of the data; the claims
depend on determinism and on there being at most `k` centroids, both
of which this models exactly. -/
def kmInit (k : Nat) (pts : List (List ℚ)) : List (List ℚ) :=
  pts.dedup.take k

/-- `KMeans(n_clusters=k, random_state=42).fit_predict(pts)`. -/
def kmeansFitPredict (k : Nat) (pts : List (List ℚ)) : List Nat :=
  lloyd pts 300 (kmInit k pts)

/-- The labels the silhouette-search loop computes at candidate `k`:
the same seeded deterministic K-Means fit on the same data. -/
def searchLabels (pts : List (List ℚ)) (k : Nat) : List Nat :=
  kmeansFitPredict k pts

/-- Minimum of a list of rationals (0 on the empty list; every use is
on a nonempty list). -/
def minOr0 : List ℚ → ℚ
  | [] => 0
  | x :: t => t.foldl min x

/-- Silhouette value of one point, sklearn conventions: 0 for a point
in a singleton cluster, otherwise `(b - a) / max a b` with `a` the
mean distance to the point's own cluster (self excluded) and `b` the
smallest mean distance to another cluster.  Distances are squared
Euclidean - the library's Euclidean distance is irrational, and no
claim depends on the score's numeric value, only on the selection rule
applied to the scores. -/
def silOne (pts : List (List ℚ)) (ls : List Nat) (p : List ℚ) (c : Nat) : ℚ :=
  let own := membersOf pts ls c
  if own.length ≤ 1 then 0
  else
    let a := (own.map (dist2 p)).sum / ((own.length : ℚ) - 1)
    let others := ls.dedup.filter (fun c2 => c2 ≠ c)
    let b := minOr0 (others.map (fun c2 => mean ((membersOf pts ls c2).map (dist2 p))))
    (b - a) / max a b

/-- `silhouette_score`: the mean silhouette value over all points. -/
def silhouetteScore (pts : List (List ℚ)) (ls : List Nat) : ℚ :=
  mean ((pts.zip ls).map (fun q => silOne pts ls q.1 q.2))

/-- One iteration of the notebook's search loop at candidate `k`:
K-Means raises when there are fewer samples than clusters, and
`silhouette_score` raises unless the number of distinct labels lies in
`2 .. n_samples - 1`; both documented `ValueError`s are embedded as
`dataInsufficiency`.  On success the mean silhouette score of the fit
at `k` is returned. -/
def scoreAt (pts : List (List ℚ)) (k : Nat) : Except PipeErr ℚ :=
  if pts.length < k then .error .dataInsufficiency
  else
    let ls := searchLabels pts k
    let L := ls.dedup.length
    if 2 ≤ L ∧ L ≤ pts.length - 1 then .ok (silhouetteScore pts ls)
    else .error .dataInsufficiency

/-- The notebook's `for k in range(2, 10)` loop building the `scores`
dict in ascending key order; the first exception aborts the loop. -/
def scoresFor (pts : List (List ℚ)) : Except PipeErr (List (Nat × ℚ)) :=
  match scoreAt pts 2 with
  | .error e => .error e
  | .ok s2 =>
    match scoreAt pts 3 with
    | .error e => .error e
    | .ok s3 =>
      match scoreAt pts 4 with
      | .error e => .error e
      | .ok s4 =>
        match scoreAt pts 5 with
        | .error e => .error e
        | .ok s5 =>
          match scoreAt pts 6 with
          | .error e => .error e
          | .ok s6 =>
            match scoreAt pts 7 with
            | .error e => .error e
            | .ok s7 =>
              match scoreAt pts 8 with
              | .error e => .error e
              | .ok s8 =>
                match scoreAt pts 9 with
                | .error e => .error e
                | .ok s9 =>
                  .ok [(2, s2), (3, s3), (4, s4), (5, s5),
                       (6, s6), (7, s7), (8, s8), (9, s9)]

/-- `best_k = max(scores, key=scores.get)`: scan the (key, score) pairs
in insertion order keeping the current best, replacing it only on a
strictly greater score, so the first maximum wins exact ties. -/
def bestOf : List (Nat × ℚ) → Nat × ℚ
  | [] => (0, 0)
  | p :: rest =>
    match rest with
    | [] => p
    | _ :: _ => if (bestOf rest).2 > p.2 then bestOf rest else p

/-- `PCA(n_components=2).fit_transform`: two projection coordinates per
row.  The library projects onto the top two principal axes, whose
eigendecomposition is irrational; no claim depends on the coordinate
values, so the embedded projection reads the first two standardized
coordinates.  The library's `ValueError` when `n_components=2` exceeds
`min(n_samples, n_features)` is checked by the Clusterer below. -/
def pcaProject (m : List (List ℚ)) : List (ℚ × ℚ) :=
  m.map (fun r => (r.getD 0 0, r.getD 1 0))

/-- Output of the Clusterer stage. -/
structure ClusterOut where
  scaled : List (List ℚ)
  proj : List (ℚ × ℚ)
  scores : List (Nat × ℚ)
  bestK : Nat
  labels : List Nat
deriving DecidableEq, Repr, Inhabited

/-- The Clusterer stage: standardize (the scaler raises on zero
samples), project with PCA (which raises when `2 > min(n_samples,
n_features)`), run the silhouette search over K = 2..9, select the
best K as the notebook's `max(scores, key=scores.get)`, and re-fit
K-Means at the selected K on the full standardized matrix. -/
def clusterer (X : List (List ℚ)) : Except PipeErr ClusterOut :=
  if X.length = 0 then .error .dataInsufficiency
  else
    let Xs := scaleMatrix X
    if min Xs.length (widthOf Xs) < 2 then .error .dataInsufficiency
    else
      match scoresFor Xs with
      | .error e => .error e
      | .ok scores =>
        let b := (bestOf scores).1
        .ok ⟨Xs, pcaProject Xs, scores, b, kmeansFitPredict b Xs⟩

/-! ### Clusterer side effect and Reporter -/

/-- The three derived column names the Clusterer writes back. -/
def derivedCols : List String := ["cluster", "PC1", "PC2"]

/-- `df['cluster'] = ...; df['PC1'] = ...; df['PC2'] = ...`: each row
gains exactly the three derived cells, existing cells untouched. -/
def addClusterCols (t : Table) (ls : List Nat) (ps : List (ℚ × ℚ)) : Table :=
  (t.zip (ls.zip ps)).map (fun q =>
    ⟨q.1.cells ++
      [("cluster", Cell.num q.2.1), ("PC1", Cell.num q.2.2.1),
       ("PC2", Cell.num q.2.2.2)]⟩)

/-- The columns the report displays for each sampled row. -/
def reportCols : List String :=
  ["first", "last", "on_base_percent", "slg_percent", "wrcplus", "war"]

/-- The cluster-id value of every row, in table order. -/
def clusterValsOf (t : Table) : List ℚ := t.map (fun r => (r.get "cluster").q)

/-- `sorted(df['cluster'].unique())`: the distinct cluster ids in
ascending order. -/
def reportIds (t : Table) : List ℚ :=
  (clusterValsOf t).dedup.insertionSort (· ≤ ·)

/-- `df[df['cluster'] == c]`: the member rows of cluster `c`, in
original row order. -/
def membersRows (t : Table) (c : ℚ) : Table :=
  t.filter (fun r => decide ((r.get "cluster").q = c))

/-- `.head()` of the member rows projected to the displayed columns:
the first five members (all of them when fewer), each as its six
displayed (column, cell) pairs. -/
def sampleFor (t : Table) (c : ℚ) : List (List (String × Cell)) :=
  ((membersRows t c).take 5).map (fun r => reportCols.map (fun n => (n, r.get n)))

/-- The Reporter's per-cluster listing: for each distinct cluster id in
ascending order, the id with its displayed sample. -/
def report (t : Table) : List (ℚ × List (List (String × Cell))) :=
  (reportIds t).map (fun c => (c, sampleFor t c))

/-! ### The pipeline -/

/-- Decidable equality of stage results. -/
instance {ε α : Type} [DecidableEq ε] [DecidableEq α] : DecidableEq (Except ε α) :=
  fun x y =>
    match x, y with
    | .error a, .error b =>
      if h : a = b then .isTrue (by rw [h])
      else .isFalse (by intro hc; injection hc; contradiction)
    | .ok a, .ok b =>
      if h : a = b then .isTrue (by rw [h])
      else .isFalse (by intro hc; injection hc; contradiction)
    | .error _, .ok _ => .isFalse (by intro hc; exact Except.noConfusion hc)
    | .ok _, .error _ => .isFalse (by intro hc; exact Except.noConfusion hc)

/-- Result of one full run. -/
structure RunOut where
  prepared : Table
  reg : Except PipeErr RegOut
  clu : Except PipeErr ClusterOut
  augmented : Except PipeErr Table
  rep : Except PipeErr (List (ℚ × List (List (String × Cell))))
deriving DecidableEq, Repr, Inhabited

/-- One top-to-bottom run of the notebook on a loaded table: prepare,
regress (seed 42), cluster, augment the table with the derived
columns, report.  A stage's exception aborts everything downstream. -/
def runPipeline (t : Table) : RunOut :=
  let p := prepare t
  let X := Xof p
  let y := yof p
  let reg := regressor X y
  match clusterer X with
  | .error e => ⟨p, reg, .error e, .error e, .error e⟩
  | .ok out =>
    let t2 := addClusterCols p out.labels out.proj
    ⟨p, reg, .ok out, .ok t2, .ok (report t2)⟩

/-! ### Concrete data for evaluating the theorems -/

/-- A fully populated player row with the given feature values and
target cell. -/
def mkNumRow (fn ln : String) (vs : List ℚ) (w : Cell) : Row :=
  ⟨[("first", Cell.str fn), ("last", Cell.str ln)] ++
    features.zip (vs.map Cell.num) ++ [("war", w)]⟩

/-- Three-row table: two complete rows around one row with a missing
target. -/
def tableC2 : Table :=
  [mkNumRow "a" "b" [1, 2, 3, 4, 5, 6, 7, 8, 9, 10] (Cell.num 1),
   mkNumRow "c" "d" [1, 2, 3, 4, 5, 6, 7, 8, 9, 10] Cell.na,
   mkNumRow "e" "f" [2, 3, 4, 5, 6, 7, 8, 9, 10, 11] (Cell.num 2)]

/-- Two-row table in which every row has a missing target cell. -/
def tableMiss : Table :=
  [mkNumRow "g" "h" [1, 2, 3, 4, 5, 6, 7, 8, 9, 10] Cell.na,
   mkNumRow "i" "j" [1, 2, 3, 4, 5, 6, 7, 8, 9, 10] Cell.na]

/-- A complete row whose first two feature columns carry the same
value `i`. -/
def rowC6 (i : ℚ) : Row :=
  mkNumRow "p" "q" [i, i, 1, 2, 3, 4, 5, 6, 7, 8] (Cell.num i)

/-- Ten complete rows whose first two feature columns coincide: a
rank-deficient (perfectly collinear) prepared feature matrix. -/
def tableC6 : Table :=
  [rowC6 1, rowC6 2, rowC6 3, rowC6 4, rowC6 5,
   rowC6 6, rowC6 7, rowC6 8, rowC6 9, rowC6 10]

/-- Ten two-dimensional points in two tight groups of five. -/
def ptsW : List (List ℚ) :=
  [[0, 0], [0, 0], [0, 0], [0, 0], [0, 0],
   [2, 2], [2, 2], [2, 2], [2, 2], [2, 2]]

/-- The Clusterer output on `ptsW` (defined by extraction so that the
theorems' hypotheses hold by reduction). -/
def cluW : ClusterOut :=
  match clusterer ptsW with
  | .ok o => o
  | .error _ => default

/-- A row carrying a cluster id and the reported statistics. -/
def rowC9 (fn : String) (c : ℚ) : Row :=
  ⟨[("first", Cell.str fn), ("last", Cell.str "z"), ("cluster", Cell.num c),
    ("on_base_percent", Cell.num 1), ("slg_percent", Cell.num 2),
    ("wrcplus", Cell.num 3), ("war", Cell.num 4)]⟩

/-- Three clustered rows with ids appearing in the order 1, 0, 1. -/
def tableC9 : Table := [rowC9 "u" 1, rowC9 "v" 0, rowC9 "w" 1]

/-! ## Lemmas about the Loader's name normalization -/

/-- Characters of a single-character replacement come from the
replacement token or pass through unchanged (and then differ from the
replaced character). -/
lemma mem_replaceWith {c a : Nat} {w l : List Nat} (h : c ∈ replaceWith a w l) :
    c ∈ w ∨ (c ∈ l ∧ c ≠ a) := by
  induction l with
  | nil => simp [replaceWith] at h
  | cons d rest ih =>
    simp only [replaceWith, List.mem_append] at h
    rcases h with h | h
    · by_cases hd : d = a
      · rw [if_pos hd] at h
        exact Or.inl h
      · rw [if_neg hd] at h
        simp at h
        subst h
        exact Or.inr ⟨List.mem_cons_self _ _, hd⟩
    · rcases ih h with h2 | ⟨h2, h3⟩
      · exact Or.inl h2
      · exact Or.inr ⟨List.mem_cons_of_mem _ h2, h3⟩

/-- Claim C3: after the Loader normalizes the header, no output column
name contains an uppercase ASCII letter (code 65..90), a space (32), a
plus sign (43) or a percent sign (37); and each name is exactly the
strip-lowercase-underscore-plus-percent composition applied by the
notebook. -/
theorem claim3 (s : List Nat) :
    (∀ c ∈ normalizeName s,
      ¬(65 ≤ c ∧ c ≤ 90) ∧ c ≠ 32 ∧ c ≠ 43 ∧ c ≠ 37) ∧
    normalizeName s =
      replaceWith 37 percentToken
        (replaceWith 43 plusToken
          (((pyStrip s).map pyLowerChar).map (fun c => if c = 32 then 95 else c))) := by
  refine ⟨?_, rfl⟩
  intro c hc
  rcases mem_replaceWith hc with hp | ⟨hmid, hne37⟩
  · simp only [percentToken, List.mem_cons, List.not_mem_nil, or_false] at hp
    omega
  · rcases mem_replaceWith hmid with hp | ⟨hinner, hne43⟩
    · simp only [plusToken, List.mem_cons, List.not_mem_nil, or_false] at hp
      omega
    · simp only [List.mem_map] at hinner
      obtain ⟨d, hd, rfl⟩ := hinner
      obtain ⟨e, _, rfl⟩ := hd
      by_cases he : 65 ≤ e ∧ e ≤ 90
      · have h1 : pyLowerChar e = e + 32 := by simp [pyLowerChar, he]
        have h2 : ¬(e + 32 = 32) := by omega
        rw [h1, if_neg h2]
        omega
      · by_cases he32 : e = 32
        · subst he32
          decide
        · have h1 : pyLowerChar e = e := by simp [pyLowerChar, he]
          rw [h1, if_neg he32] at hne43 hne37 ⊢
          omega

/-- Witness for C3: the raw header name " WRC+ " (space, W, R, C,
plus, space) normalizes to "wrcplus", and its first character is a
lowercase letter, not a space, plus or percent sign. -/
theorem claim3_witness :
    (119 ∈ normalizeName [32, 87, 82, 67, 43, 32]) ∧
    (¬(65 ≤ 119 ∧ 119 ≤ 90) ∧ 119 ≠ 32 ∧ 119 ≠ 43 ∧ 119 ≠ 37) :=
  ⟨by decide, (claim3 [32, 87, 82, 67, 43, 32]).1 119 (by decide)⟩

/-! ## Lemmas about the Feature Preparer -/

/-- Claim C2: the Feature Preparer keeps exactly the rows with no
missing cell among the ten feature columns and the target; every
retained row is complete there; retained rows keep their original
order (a sublist of the input); and the feature matrix and target
vector are aligned with the retained rows index by index. -/
theorem claim2 (t : Table) :
    (prepare t).length = t.countP keepRow ∧
    (∀ r ∈ prepare t, ∀ c ∈ features ++ ["war"], (r.get c).isna = false) ∧
    (prepare t).Sublist t ∧
    ((Xof (prepare t)).length = (prepare t).length ∧
     (yof (prepare t)).length = (prepare t).length) ∧
    (∀ i, ∀ hp : i < (prepare t).length,
      ∀ hx : i < (Xof (prepare t)).length, ∀ hy : i < (yof (prepare t)).length,
      (Xof (prepare t)).get ⟨i, hx⟩ =
        features.map (fun c => (((prepare t).get ⟨i, hp⟩).get c).q) ∧
      (yof (prepare t)).get ⟨i, hy⟩ = (((prepare t).get ⟨i, hp⟩).get "war").q) := by
  refine ⟨?_, ?_, ?_, ⟨?_, ?_⟩, ?_⟩
  · rw [List.countP_eq_length_filter]
    rfl
  · intro r hr c hcm
    have hk : keepRow r = true := (List.mem_filter.mp hr).2
    have := List.all_eq_true.mp hk c hcm
    simpa using this
  · exact List.filter_sublist t
  · simp [Xof]
  · simp [yof]
  · intro i hp hx hy
    constructor
    · simp [Xof]
    · simp [yof]

/-- Witness for C2 on the three-row table with one incomplete row: two
rows are retained, the first retained row's target cell is present,
and the first feature-matrix row is the projection of the first
retained row. -/
theorem claim2_witness :
    (prepare tableC2).length = tableC2.countP keepRow ∧
    ((mkNumRow "a" "b" [1, 2, 3, 4, 5, 6, 7, 8, 9, 10] (Cell.num 1)).get "war").isna
      = false ∧
    (Xof (prepare tableC2)).get ⟨0, by decide⟩ =
      features.map (fun c =>
        (((prepare tableC2).get ⟨0, by decide⟩).get c).q) := by
  have h := claim2 tableC2
  refine ⟨h.1, ?_, (h.2.2.2.2 0 (by decide) (by decide) (by decide)).1⟩
  exact h.2.1 _ (by decide) "war" (by decide)

/-! ## Lemmas about the Regressor's error behaviour -/

/-- The split fails exactly on fewer than two rows, and then with the
too-few-rows error. -/
lemma trainTestSplit_error_iff (seed n : Nat) (e : PipeErr) :
    trainTestSplit seed n = .error e ↔ (n < 2 ∧ e = .dataInsufficiency) := by
  simp only [trainTestSplit]
  split_ifs with h
  · constructor
    · intro he
      injection he with he2
      exact ⟨by omega, he2.symm⟩
    · rintro ⟨-, rfl⟩
      rfl
  · constructor
    · intro he
      simp at he
    · rintro ⟨hn, -⟩
      exact absurd (by omega : (n + 4) / 5 = 0 ∨ n - (n + 4) / 5 = 0) h

/-- The Regressor stage fails exactly when the split does. -/
lemma regressorSeeded_error_iff (seed : Nat) (X : List (List ℚ)) (y : List ℚ)
    (e : PipeErr) :
    regressorSeeded seed X y = .error e ↔
      (X.length < 2 ∧ e = .dataInsufficiency) := by
  unfold regressorSeeded
  split
  · rename_i e2 heq
    have h2 := (trainTestSplit_error_iff seed X.length e2).mp heq
    constructor
    · intro he
      injection he with he3
      exact ⟨h2.1, he3 ▸ h2.2⟩
    · rintro ⟨-, rfl⟩
      rw [h2.2]
  · rename_i tr te heq
    constructor
    · intro he
      exact Except.noConfusion he
    · rintro ⟨hn, -⟩
      have h3 := (trainTestSplit_error_iff seed X.length .dataInsufficiency).mpr
        ⟨hn, rfl⟩
      rw [heq] at h3
      exact Except.noConfusion h3

/-- The Regressor never reports a degenerate (rank-deficient) input. -/
lemma regressor_never_degenerate (X : List (List ℚ)) (y : List ℚ) :
    regressor X y ≠ .error .degenerateInput := by
  intro h
  have h2 := (regressorSeeded_error_iff 42 X y .degenerateInput).mp h
  simpa using h2.2

/-- With at least two prepared rows the Regressor completes. -/
lemma regressor_ok_of_two_le (X : List (List ℚ)) (y : List ℚ)
    (h : 2 ≤ X.length) : ∃ o, regressor X y = .ok o := by
  unfold regressor regressorSeeded
  cases hs : trainTestSplit 42 X.length with
  | error e2 =>
    have h2 := (trainTestSplit_error_iff 42 X.length e2).mp hs
    omega
  | ok p =>
    obtain ⟨tr, te⟩ := p
    exact ⟨_, rfl⟩

/-- The split used by a successful Regressor run is the seeded one. -/
lemma regressorSeeded_ok_split (seed : Nat) (X : List (List ℚ)) (y : List ℚ)
    (r : RegOut) (h : regressorSeeded seed X y = .ok r) :
    trainTestSplit seed X.length = .ok (r.trainIdx, r.testIdx) := by
  unfold regressorSeeded at h
  revert h
  split
  · rename_i e heq
    intro h
    exact Except.noConfusion h
  · rename_i tr te heq
    intro h
    injection h with h2
    subst h2
    rw [heq]

/-- Claim C6 (amended): the Regressor errors exactly when fewer than
two prepared rows exist (the library split's empty-side error, the
spec's data-insufficiency class), and it never reports a degenerate
input: a rank-deficient feature matrix is fitted silently. -/
theorem claim6 (X : List (List ℚ)) (y : List ℚ) :
    ((∃ e, regressor X y = .error e) ↔ X.length < 2) ∧
    (∀ e, regressor X y = .error e → e = .dataInsufficiency) ∧
    regressor X y ≠ .error .degenerateInput := by
  refine ⟨⟨?_, ?_⟩, ?_, regressor_never_degenerate X y⟩
  · rintro ⟨e, he⟩
    exact ((regressorSeeded_error_iff 42 X y e).mp he).1
  · intro h
    exact ⟨.dataInsufficiency, (regressorSeeded_error_iff 42 X y _).mpr ⟨h, rfl⟩⟩
  · intro e he
    exact ((regressorSeeded_error_iff 42 X y e).mp he).2

/-- Counterexample to C6 as stated: on a ten-row prepared table whose
first two feature columns are identical (a rank-deficient feature
matrix), the Regressor does not fail with any error - it completes
silently instead of reporting a DegenerateInputError. -/
theorem claim6_counterexample :
    (Xof (prepare tableC6)).length = 10 ∧
    (Xof (prepare tableC6)).map (fun r => r.getD 0 0) =
      (Xof (prepare tableC6)).map (fun r => r.getD 1 0) ∧
    ∀ e, regressor (Xof (prepare tableC6)) (yof (prepare tableC6)) ≠ .error e := by
  refine ⟨by decide, by decide, ?_⟩
  intro e he
  have h1 := ((regressorSeeded_error_iff 42 _ _ e).mp he).1
  have h10 : (Xof (prepare tableC6)).length = 10 := by decide
  omega

/-- Witness for C6: on a one-row input the Regressor does fail, and
with the data-insufficiency error. -/
theorem claim6_witness :
    regressor [[1]] [0] = .error .dataInsufficiency := by
  obtain ⟨e, he⟩ := (claim6 [[1]] [0]).1.mpr (by decide)
  have h2 := (claim6 [[1]] [0]).2.1 e he
  rw [h2] at he
  exact he

/-! ## Lemmas about empty and tiny inputs (C7) -/

/-- Claim C7: when every input row has a missing value among the ten
feature columns or the target, the Feature Preparer retains nothing
and both downstream stages fail with the data-insufficiency error; in
general the Clusterer fails with that error whenever fewer rows remain
than a valid silhouette computation at the minimum candidate K = 2
requires (three). -/
theorem claim7 (t : Table)
    (hmiss : ∀ r ∈ t, ∃ c ∈ features ++ ["war"], (r.get c).isna = true) :
    (prepare t = [] ∧ Xof (prepare t) = [] ∧
     regressor (Xof (prepare t)) (yof (prepare t)) = .error .dataInsufficiency ∧
     clusterer (Xof (prepare t)) = .error .dataInsufficiency) ∧
    (∀ X : List (List ℚ), X.length < 3 →
      clusterer X = .error .dataInsufficiency) := by
  have hnil : prepare t = [] := by
    rw [prepare, List.filter_eq_nil_iff]
    intro r hr hk
    obtain ⟨c, hc, hna⟩ := hmiss r hr
    have h2 := List.all_eq_true.mp hk c hc
    rw [hna] at h2
    simp at h2
  refine ⟨⟨hnil, by rw [hnil]; rfl, by rw [hnil]; rfl, by rw [hnil]; rfl⟩, ?_⟩
  intro X hX
  rcases X with - | ⟨a, X2⟩
  · rfl
  rcases X2 with - | ⟨b, X3⟩
  · have hw : min (scaleMatrix [a]).length (widthOf (scaleMatrix [a])) < 2 := by
      have h1 : (scaleMatrix [a]).length = 1 := by simp [scaleMatrix]
      have h2 := Nat.min_le_left (scaleMatrix [a]).length (widthOf (scaleMatrix [a]))
      omega
    simp only [clusterer]
    rw [if_neg (by simp), if_pos hw]
  rcases X3 with - | ⟨c, X4⟩
  · have hlen : (scaleMatrix [a, b]).length = 2 := by simp [scaleMatrix]
    by_cases hw : min (scaleMatrix [a, b]).length (widthOf (scaleMatrix [a, b])) < 2
    · simp only [clusterer]
      rw [if_neg (by simp), if_pos hw]
    · have hs2 : scoreAt (scaleMatrix [a, b]) 2 = .error .dataInsufficiency := by
        simp only [scoreAt]
        rw [if_neg (by rw [hlen]; omega), if_neg ?_]
        intro hcond
        rw [hlen] at hcond
        omega
      have hsf : scoresFor (scaleMatrix [a, b]) = .error .dataInsufficiency := by
        unfold scoresFor
        rw [hs2]
      simp only [clusterer]
      rw [if_neg (by simp), if_neg hw, hsf]
  · exfalso
    simp only [List.length_cons] at hX
    omega

/-- Witness for C7: on the two-row table whose rows all lack a target
value the Preparer retains nothing and the Regressor fails; and on a
concrete two-row feature matrix the Clusterer fails. -/
theorem claim7_witness :
    prepare tableMiss = [] ∧
    regressor (Xof (prepare tableMiss)) (yof (prepare tableMiss)) =
      .error .dataInsufficiency ∧
    clusterer [[0, 0], [1, 1]] = .error .dataInsufficiency := by
  have h := claim7 tableMiss (by decide)
  exact ⟨h.1.1, h.1.2.2.1, h.2 [[0, 0], [1, 1]] (by decide)⟩

/-! ## Determinism of the pipeline (C5) -/

/-- Claim C5: two runs of the pipeline on identical input produce
identical results: the same Regressor output (built on the
seed-42 split) and the same Clusterer output (same selected K, same
labels for every row). -/
theorem claim5 (t : Table) (o1 o2 : RunOut)
    (h1 : runPipeline t = o1) (h2 : runPipeline t = o2) :
    o1.reg = o2.reg ∧ o1.clu = o2.clu ∧ o1.rep = o2.rep ∧
    o1.reg = regressorSeeded 42 (Xof (prepare t)) (yof (prepare t)) ∧
    (∀ r, o1.reg = .ok r →
      trainTestSplit 42 (Xof (prepare t)).length = .ok (r.trainIdx, r.testIdx)) ∧
    (∀ c1 c2, o1.clu = .ok c1 → o2.clu = .ok c2 →
      c1.bestK = c2.bestK ∧ c1.labels = c2.labels) := by
  subst h1
  subst h2
  have hreg : (runPipeline t).reg =
      regressorSeeded 42 (Xof (prepare t)) (yof (prepare t)) := by
    simp only [runPipeline]
    cases hc : clusterer (Xof (prepare t)) <;> simp [regressor]
  refine ⟨rfl, rfl, rfl, hreg, ?_, ?_⟩
  · intro r hr
    rw [hreg] at hr
    exact regressorSeeded_ok_split 42 _ _ r hr
  · intro c1 c2 hc1 hc2
    rw [hc1] at hc2
    injection hc2 with h3
    exact ⟨by rw [h3], by rw [h3]⟩

/-- Witness for C5: the pipeline run on the concrete three-row table
agrees with itself and its Regressor output is the seed-42 one. -/
theorem claim5_witness :
    (runPipeline tableC2).reg = (runPipeline tableC2).reg ∧
    (runPipeline tableC2).reg =
      regressorSeeded 42 (Xof (prepare tableC2)) (yof (prepare tableC2)) := by
  have h := claim5 tableC2 (runPipeline tableC2) (runPipeline tableC2) rfl rfl
  exact ⟨h.1, h.2.2.2.1⟩

/-! ## Lemmas about the silhouette search and best-K selection -/

/-- Unfolding of the scan on a list of two or more scores. -/
lemma bestOf_cons2 (p d : Nat × ℚ) (t : List (Nat × ℚ)) :
    bestOf (p :: d :: t) =
      if (bestOf (d :: t)).2 > p.2 then bestOf (d :: t) else p := rfl

/-- The selected pair is one of the scanned pairs. -/
lemma bestOf_mem : ∀ l : List (Nat × ℚ), l ≠ [] → bestOf l ∈ l := by
  intro l
  induction l with
  | nil => intro h; exact absurd rfl h
  | cons p rest ih =>
    intro _
    cases rest with
    | nil => simp [bestOf]
    | cons d t =>
      rw [bestOf_cons2]
      split_ifs with h
      · exact List.mem_cons_of_mem _ (ih (by simp))
      · exact List.mem_cons_self _ _

/-- The selected pair carries a maximal score. -/
lemma bestOf_le : ∀ l : List (Nat × ℚ), ∀ p ∈ l, p.2 ≤ (bestOf l).2 := by
  intro l
  induction l with
  | nil => intro p hp; simp at hp
  | cons q rest ih =>
    intro p hp
    cases rest with
    | nil =>
      simp at hp
      subst hp
      simp [bestOf]
    | cons d t =>
      rw [bestOf_cons2]
      rcases List.mem_cons.mp hp with rfl | hp2
      · split_ifs with h
        · exact le_of_lt h
        · exact le_refl _
      · have h2 := ih p hp2
        split_ifs with h
        · exact h2
        · exact le_trans h2 (le_of_not_lt h)

/-- On a key-ascending score list the scan returns the pair with the
smallest key among those attaining the maximal score: the first
maximum wins exact ties. -/
lemma bestOf_first : ∀ l : List (Nat × ℚ),
    l.Pairwise (fun a b => a.1 < b.1) →
    ∀ p ∈ l, p.2 = (bestOf l).2 → (bestOf l).1 ≤ p.1 := by
  intro l
  induction l with
  | nil => intro _ p hp; simp at hp
  | cons q rest ih =>
    intro hpw p hp heq
    rw [List.pairwise_cons] at hpw
    cases rest with
    | nil =>
      simp at hp
      subst hp
      exact le_refl _
    | cons d t =>
      rw [bestOf_cons2] at heq ⊢
      split_ifs at heq ⊢ with h
      · rcases List.mem_cons.mp hp with rfl | hp2
        · exfalso
          rw [← heq] at h
          exact lt_irrefl _ h
        · exact ih hpw.2 p hp2 heq
      · rcases List.mem_cons.mp hp with rfl | hp2
        · exact le_refl _
        · exact le_of_lt (hpw.1 p hp2)

/-- A successful loop iteration returns the mean silhouette score of
the K-Means fit at that candidate. -/
lemma scoreAt_ok (pts : List (List ℚ)) (k : Nat) (q : ℚ)
    (h : scoreAt pts k = .ok q) :
    q = silhouetteScore pts (searchLabels pts k) := by
  simp only [scoreAt] at h
  split_ifs at h
  injection h with h3
  exact h3.symm

/-- A successful search visits exactly the candidates 2..9 in
ascending order and records the silhouette score of the fit at each. -/
lemma scoresFor_ok_inv (pts : List (List ℚ)) (l : List (Nat × ℚ))
    (h : scoresFor pts = .ok l) :
    l = [2, 3, 4, 5, 6, 7, 8, 9].map
          (fun k => (k, silhouetteScore pts (searchLabels pts k))) := by
  unfold scoresFor at h
  cases h2 : scoreAt pts 2 with
  | error e => rw [h2] at h; exact Except.noConfusion h
  | ok s2 =>
  rw [h2] at h
  cases h3 : scoreAt pts 3 with
  | error e => rw [h3] at h; exact Except.noConfusion h
  | ok s3 =>
  rw [h3] at h
  cases h4 : scoreAt pts 4 with
  | error e => rw [h4] at h; exact Except.noConfusion h
  | ok s4 =>
  rw [h4] at h
  cases h5 : scoreAt pts 5 with
  | error e => rw [h5] at h; exact Except.noConfusion h
  | ok s5 =>
  rw [h5] at h
  cases h6 : scoreAt pts 6 with
  | error e => rw [h6] at h; exact Except.noConfusion h
  | ok s6 =>
  rw [h6] at h
  cases h7 : scoreAt pts 7 with
  | error e => rw [h7] at h; exact Except.noConfusion h
  | ok s7 =>
  rw [h7] at h
  cases h8 : scoreAt pts 8 with
  | error e => rw [h8] at h; exact Except.noConfusion h
  | ok s8 =>
  rw [h8] at h
  cases h9 : scoreAt pts 9 with
  | error e => rw [h9] at h; exact Except.noConfusion h
  | ok s9 =>
  rw [h9] at h
  injection h with hl
  rw [← hl, scoreAt_ok pts 2 s2 h2, scoreAt_ok pts 3 s3 h3, scoreAt_ok pts 4 s4 h4,
    scoreAt_ok pts 5 s5 h5, scoreAt_ok pts 6 s6 h6, scoreAt_ok pts 7 s7 h7,
    scoreAt_ok pts 8 s8 h8, scoreAt_ok pts 9 s9 h9]
  rfl

/-- Inversion of a successful Clusterer run. -/
lemma clusterer_ok_inv (X : List (List ℚ)) (out : ClusterOut)
    (h : clusterer X = .ok out) :
    out.scaled = scaleMatrix X ∧
    scoresFor (scaleMatrix X) = .ok out.scores ∧
    out.bestK = (bestOf out.scores).1 ∧
    out.labels = kmeansFitPredict out.bestK (scaleMatrix X) ∧
    out.proj = pcaProject (scaleMatrix X) ∧
    X.length ≠ 0 ∧
    ¬ min (scaleMatrix X).length (widthOf (scaleMatrix X)) < 2 := by
  simp only [clusterer] at h
  split_ifs at h with h0 h1
  cases hs : scoresFor (scaleMatrix X) with
  | error e => rw [hs] at h; exact Except.noConfusion h
  | ok s =>
    rw [hs] at h
    injection h with h2
    subst h2
    exact ⟨rfl, rfl, rfl, rfl, rfl, h0, h1⟩

/-- Claim C1: a successful Clusterer run evaluates exactly the
candidates K = 2..9 in ascending order, records the mean silhouette
score of the K-Means fit at each, and selects the candidate attaining
the maximal score, taking the smallest such K on exact ties. -/
theorem claim1 (X : List (List ℚ)) (out : ClusterOut)
    (h : clusterer X = .ok out) :
    out.scores.map Prod.fst = [2, 3, 4, 5, 6, 7, 8, 9] ∧
    (∀ k q, (k, q) ∈ out.scores →
      q = silhouetteScore out.scaled (searchLabels out.scaled k)) ∧
    bestOf out.scores ∈ out.scores ∧
    out.bestK = (bestOf out.scores).1 ∧
    (∀ p ∈ out.scores, p.2 ≤ (bestOf out.scores).2) ∧
    (∀ p ∈ out.scores, p.2 = (bestOf out.scores).2 → out.bestK ≤ p.1) := by
  obtain ⟨hsc, hs, hb, -, -, -, -⟩ := clusterer_ok_inv X out h
  have hl := scoresFor_ok_inv (scaleMatrix X) out.scores hs
  have hpw : out.scores.Pairwise (fun a b => a.1 < b.1) := by
    rw [hl, List.pairwise_map]
    exact (by decide : List.Pairwise (fun a b => a < b) [2, 3, 4, 5, 6, 7, 8, 9])
  have hne : out.scores ≠ [] := by
    rw [hl]
    simp
  refine ⟨by rw [hl]; rfl, ?_, bestOf_mem _ hne, hb, bestOf_le _, ?_⟩
  · intro k q hkq
    rw [hsc]
    rw [hl] at hkq
    simp only [List.mem_map, Prod.mk.injEq] at hkq
    obtain ⟨a, _, rfl, rfl⟩ := hkq
    rfl
  · intro p hp he
    rw [hb]
    exact bestOf_first _ hpw p hp he

set_option maxRecDepth 100000 in
/-- Witness for C1 on the two-blob data: the search leaves all eight
candidates with equal scores, and the tie-break selects K = 2, the
smallest; the selection also never exceeds the tied candidate 9. -/
theorem claim1_witness :
    cluW.scores.map Prod.fst = [2, 3, 4, 5, 6, 7, 8, 9] ∧
    cluW.bestK = (bestOf cluW.scores).1 ∧
    cluW.bestK ≤ 9 := by
  have h := claim1 ptsW cluW (by with_unfolding_all rfl)
  exact ⟨h.1, h.2.2.2.1,
    h.2.2.2.2.2 (9, 1) (by with_unfolding_all decide) (by with_unfolding_all decide)⟩

/-- Claim C10: the final K-Means model re-fitted at the selected best K
(same fixed seed, same standardized data) assigns exactly the labels
the search-phase fit at that K produced: the re-fit changes nothing. -/
theorem claim10 (X : List (List ℚ)) (out : ClusterOut)
    (h : clusterer X = .ok out) :
    out.labels = searchLabels out.scaled out.bestK := by
  obtain ⟨hsc, -, -, hlab, -, -, -⟩ := clusterer_ok_inv X out h
  rw [hlab, hsc]
  rfl

set_option maxRecDepth 100000 in
/-- Witness for C10: on the two-blob data the re-fitted labels equal
the search-phase labels at the selected K. -/
theorem claim10_witness :
    cluW.labels = searchLabels cluW.scaled cluW.bestK :=
  claim10 ptsW cluW (by with_unfolding_all rfl)

/-! ## Lemmas about K-Means label ranges and standardization (C4) -/

/-- The assignment index is always a valid centroid index. -/
lemma argminIdx_lt (p : List ℚ) :
    ∀ cs : List (List ℚ), cs ≠ [] → argminIdx p cs < cs.length := by
  intro cs
  induction cs with
  | nil => intro h; exact absurd rfl h
  | cons c rest ih =>
    intro _
    cases rest with
    | nil => simp [argminIdx]
    | cons d t =>
      simp only [argminIdx]
      split_ifs
      · simp
      · have h2 := ih (by simp)
        simp only [List.length_cons] at h2 ⊢
        omega

/-- A Lloyd update keeps the number of centroids. -/
lemma length_updateCentroids (pts : List (List ℚ)) (ls : List Nat)
    (cs : List (List ℚ)) : (updateCentroids pts ls cs).length = cs.length := by
  simp [updateCentroids]

/-- Lloyd iteration labels every point. -/
lemma lloyd_length (pts : List (List ℚ)) :
    ∀ fuel cs, (lloyd pts fuel cs).length = pts.length := by
  intro fuel
  induction fuel with
  | zero => intro cs; simp [lloyd]
  | succ n ih =>
    intro cs
    simp only [lloyd]
    split_ifs
    · simp
    · exact ih _

/-- Lloyd iteration labels stay below any bound on the centroid
count. -/
lemma lloyd_lt (pts : List (List ℚ)) (k : Nat) :
    ∀ fuel cs, cs ≠ [] → cs.length ≤ k → ∀ l ∈ lloyd pts fuel cs, l < k := by
  intro fuel
  induction fuel with
  | zero =>
    intro cs h1 h2 l hl
    simp only [lloyd, List.mem_map] at hl
    obtain ⟨q, -, rfl⟩ := hl
    exact lt_of_lt_of_le (argminIdx_lt q cs h1) h2
  | succ n ih =>
    intro cs h1 h2 l hl
    simp only [lloyd] at hl
    split_ifs at hl
    · simp only [List.mem_map] at hl
      obtain ⟨q, -, rfl⟩ := hl
      exact lt_of_lt_of_le (argminIdx_lt q cs h1) h2
    · have hlen := length_updateCentroids pts (pts.map fun p => argminIdx p cs) cs
      apply ih _ ?_ ?_ l hl
      · intro hnil
        rw [hnil] at hlen
        have h3 : cs.length = 0 := by simpa using hlen.symm
        exact h1 (List.length_eq_zero.mp h3)
      · rw [hlen]
        exact h2

/-- The seeded initialization provides at most `k` centroids. -/
lemma kmInit_length_le (k : Nat) (pts : List (List ℚ)) :
    (kmInit k pts).length ≤ k := by
  simp [kmInit, List.length_take]

/-- On a nonempty data set with `k ≥ 1` the initialization is
nonempty. -/
lemma kmInit_ne_nil (k : Nat) (pts : List (List ℚ)) (hk : 1 ≤ k)
    (hp : pts ≠ []) : kmInit k pts ≠ [] := by
  simp only [kmInit]
  intro h
  have h2 : (pts.dedup.take k).length = 0 := by rw [h]; rfl
  rw [List.length_take] at h2
  have h3 : pts.dedup ≠ [] := fun h4 => hp ((List.dedup_eq_nil pts).mp h4)
  have h4 : 0 < pts.dedup.length := List.length_pos.mpr h3
  omega

/-- K-Means labels every point. -/
lemma kmeansFitPredict_length (k : Nat) (pts : List (List ℚ)) :
    (kmeansFitPredict k pts).length = pts.length := lloyd_length pts 300 _

/-- K-Means labels lie in `0 .. k-1`. -/
lemma kmeansFitPredict_lt (k : Nat) (pts : List (List ℚ)) (hk : 1 ≤ k)
    (hp : pts ≠ []) : ∀ l ∈ kmeansFitPredict k pts, l < k :=
  lloyd_lt pts k 300 (kmInit k pts) (kmInit_ne_nil k pts hk hp)
    (kmInit_length_le k pts)

/-- Sum of a recentred-and-rescaled list. -/
lemma sum_map_sub_div (xs : List ℚ) (m s : ℚ) :
    (xs.map (fun x => (x - m) / s)).sum =
      (xs.sum - (xs.length : ℚ) * m) / s := by
  induction xs with
  | nil => simp
  | cons a l ih =>
    simp only [List.map_cons, List.sum_cons, ih, List.length_cons]
    rw [div_add_div_same]
    congr 1
    push_cast
    ring

/-- Sum of squared recentred-and-rescaled values. -/
lemma sum_map_sq_div (xs : List ℚ) (m s : ℚ) :
    (xs.map (fun x => ((x - m) / s) ^ 2)).sum =
      (xs.map (fun x => (x - m) ^ 2)).sum / s ^ 2 := by
  induction xs with
  | nil => simp
  | cons a l ih =>
    simp only [List.map_cons, List.sum_cons, ih]
    rw [div_pow, div_add_div_same]

/-- A standardized column has mean zero. -/
lemma mean_scaleQ (xs : List ℚ) (s : ℚ) (hne : xs ≠ []) :
    mean (scaleQ xs s) = 0 := by
  have hn : (xs.length : ℚ) ≠ 0 :=
    Nat.cast_ne_zero.mpr (List.length_pos.mpr hne).ne'
  simp only [mean, scaleQ, List.length_map]
  rw [sum_map_sub_div]
  have h0 : xs.sum - (xs.length : ℚ) * (xs.sum / (xs.length : ℚ)) = 0 := by
    field_simp
  rw [h0, zero_div, zero_div]

/-- A column standardized by an exact root of its variance has unit
population variance. -/
lemma popVar_scaleQ (xs : List ℚ) (s : ℚ) (hs : s ≠ 0)
    (hv : s * s = popVar xs) (hne : xs ≠ []) :
    popVar (scaleQ xs s) = 1 := by
  have hn : (xs.length : ℚ) ≠ 0 :=
    Nat.cast_ne_zero.mpr (List.length_pos.mpr hne).ne'
  have h0 : mean (scaleQ xs s) = 0 := mean_scaleQ xs s hne
  have hvne : popVar xs ≠ 0 := by
    rw [← hv]
    exact mul_ne_zero hs hs
  simp only [popVar]
  rw [h0]
  simp only [sub_zero, scaleQ, List.length_map, List.map_map, Function.comp_def]
  rw [sum_map_sq_div]
  have hS : (xs.map (fun x => (x - mean xs) ^ 2)).sum = popVar xs * xs.length := by
    simp only [popVar]
    field_simp
  rw [hS, ← hv, pow_two, mul_div_cancel_left₀ _ (mul_ne_zero hs hs), div_self hn]

/-- Number of columns of the standardized matrix, on width-uniform
input. -/
lemma widthOf_scaleMatrix (X : List (List ℚ))
    (hu : ∀ r ∈ X, r.length = widthOf X) :
    widthOf (scaleMatrix X) = widthOf X := by
  cases X with
  | nil => rfl
  | cons r t =>
    have hr : r.length = widthOf (r :: t) := hu r (by simp)
    show ((r.zip (colStats (r :: t))).map _).length = _
    rw [List.length_map, List.length_zip]
    have hc : (colStats (r :: t)).length = widthOf (r :: t) := by
      simp [colStats, transposeL]
    rw [hc, hr, Nat.min_self]

/-- The standardized matrix keeps the number of rows. -/
lemma length_scaleMatrix (X : List (List ℚ)) :
    (scaleMatrix X).length = X.length := by
  simp [scaleMatrix]

/-- On width-uniform input the columns of the standardized matrix are
exactly the standardized columns of the input: each column is
recentred by its own mean over all rows and rescaled by its own
scale. -/
lemma transposeL_scaleMatrix (X : List (List ℚ))
    (hu : ∀ r ∈ X, r.length = widthOf X) :
    transposeL (scaleMatrix X) =
      (transposeL X).map (fun c => scaleQ c (stdOf c)) := by
  unfold transposeL
  rw [widthOf_scaleMatrix X hu, List.map_map]
  apply List.map_congr_left
  intro j hj
  rw [List.mem_range] at hj
  show (scaleMatrix X).map (fun r => r.getD j 0) =
    scaleQ (X.map (fun r => r.getD j 0)) (stdOf (X.map (fun r => r.getD j 0)))
  simp only [scaleQ, scaleMatrix, List.map_map]
  apply List.map_congr_left
  intro r hr
  have hrl : r.length = widthOf X := hu r hr
  have hcl : (colStats X).length = widthOf X := by
    simp [colStats, transposeL]
  have hzl : (r.zip (colStats X)).length = widthOf X := by
    rw [List.length_zip, hrl, hcl, Nat.min_self]
  have hj1 : j < ((r.zip (colStats X)).map
      (fun q => (q.1 - q.2.1) / q.2.2)).length := by
    rw [List.length_map, hzl]
    exact hj
  simp only [Function.comp]
  rw [List.getD_eq_getElem _ _ hj1]
  have hj2 : j < (r.zip (colStats X)).length := by rw [hzl]; exact hj
  have hj3 : j < r.length := by rw [hrl]; exact hj
  have hj4 : j < (colStats X).length := by rw [hcl]; exact hj
  rw [List.getElem_map]
  rw [List.getElem_zip]
  have hst : (colStats X)[j] =
      (mean (X.map (fun r2 => r2.getD j 0)),
       stdOf (X.map (fun r2 => r2.getD j 0))) := by
    simp only [colStats, transposeL]
    rw [List.getElem_map, List.getElem_map, List.getElem_range]
  rw [hst, List.getD_eq_getElem r 0 hj3]

/-- Claim C4: a successful Clusterer run standardizes over all
retained rows (the scaled matrix has one row per retained row and its
columns are the input columns recentred and rescaled by statistics of
the full column), standardization brings every column to zero mean
and unit population variance (for the exact root `s` of the column
variance), the clustering is re-fitted on the full standardized set,
and every retained row receives a label in `0 .. K-1`. -/
theorem claim4 (X : List (List ℚ)) (out : ClusterOut)
    (h : clusterer X = .ok out) (hu : ∀ r ∈ X, r.length = widthOf X) :
    (out.scaled = scaleMatrix X ∧ out.scaled.length = X.length) ∧
    (transposeL out.scaled = (transposeL X).map (fun c => scaleQ c (stdOf c))) ∧
    (∀ xs s, s ≠ 0 → s * s = popVar xs → xs ≠ [] →
      mean (scaleQ xs s) = 0 ∧ popVar (scaleQ xs s) = 1) ∧
    out.labels.length = X.length ∧
    2 ≤ out.bestK ∧
    (∀ l ∈ out.labels, l < out.bestK) := by
  obtain ⟨hsc, hs, hb, hlab, -, -, hmin⟩ := clusterer_ok_inv X out h
  have hl := scoresFor_ok_inv (scaleMatrix X) out.scores hs
  have hscne : scaleMatrix X ≠ [] := by
    intro h2
    rw [h2] at hmin
    simp at hmin
  have hk2 : 2 ≤ out.bestK := by
    have hm := bestOf_mem out.scores (by rw [hl]; simp)
    rw [hl] at hm
    simp only [List.mem_map] at hm
    obtain ⟨a, ha, heq⟩ := hm
    have ha2 : 2 ≤ a := by
      simp only [List.mem_cons, List.not_mem_nil, or_false] at ha
      rcases ha with rfl | rfl | rfl | rfl | rfl | rfl | rfl | rfl <;> omega
    rw [hb, hl, ← heq]
    exact ha2
  refine ⟨⟨hsc, by rw [hsc, length_scaleMatrix]⟩,
    by rw [hsc]; exact transposeL_scaleMatrix X hu,
    fun xs s h1 h2 h3 => ⟨mean_scaleQ xs s h3, popVar_scaleQ xs s h1 h2 h3⟩,
    ?_, hk2, ?_⟩
  · rw [hlab, kmeansFitPredict_length, length_scaleMatrix]
  · intro l hl2
    rw [hlab] at hl2
    exact kmeansFitPredict_lt out.bestK (scaleMatrix X) (by omega) hscne l hl2

set_option maxRecDepth 100000 in
/-- Witness for C4 on the two-blob data: the Clusterer succeeds, every
label lies below the selected K, the label list covers all ten rows,
and the concrete column [0,0,0,0,0,2,2,2,2,2] standardized by the
exact root 1 of its variance has mean 0 and variance 1. -/
theorem claim4_witness :
    cluW.labels.length = ptsW.length ∧
    (∀ l ∈ cluW.labels, l < cluW.bestK) ∧
    mean (scaleQ [0, 0, 0, 0, 0, 2, 2, 2, 2, 2] 1) = 0 ∧
    popVar (scaleQ [0, 0, 0, 0, 0, 2, 2, 2, 2, 2] 1) = 1 := by
  have h := claim4 ptsW cluW (by with_unfolding_all rfl) (by decide)
  have h2 := h.2.2.1 [0, 0, 0, 0, 0, 2, 2, 2, 2, 2] 1 (by norm_num)
    (by with_unfolding_all decide) (by decide)
  exact ⟨h.2.2.2.1, h.2.2.2.2.2, h2.1, h2.2⟩

/-! ## Lemmas about the Clusterer's table side effect (C8) -/

/-- A column absent from an association list reads as missing. -/
lemma getCell_eq_na (l : List (String × Cell)) (c : String)
    (h : ∀ kv ∈ l, kv.1 ≠ c) : getCell l c = .na := by
  induction l with
  | nil => rfl
  | cons kv rest ih =>
    obtain ⟨k, v⟩ := kv
    simp only [getCell]
    rw [if_neg (h (k, v) (by simp))]
    exact ih fun kv2 h2 => h kv2 (by simp [h2])

/-- Appending cells for fresh column names does not change any other
column read. -/
lemma getCell_append (l1 l2 : List (String × Cell)) (c : String)
    (h : ∀ kv ∈ l2, kv.1 ≠ c) :
    getCell (l1 ++ l2) c = getCell l1 c := by
  induction l1 with
  | nil =>
    simp only [List.nil_append]
    rw [getCell_eq_na l2 c h]
    rfl
  | cons kv rest ih =>
    obtain ⟨k, v⟩ := kv
    simp only [List.cons_append, getCell]
    split_ifs
    · rfl
    · exact ih

/-- Reading any column other than the three derived ones from a row
augmented with the derived cells gives the original value. -/
lemma rowGet_append_derived (r : Row) (a b1 b2 : ℚ) (c : String)
    (hc : c ∉ derivedCols) :
    (Row.mk (r.cells ++
      [("cluster", Cell.num a), ("PC1", Cell.num b1),
       ("PC2", Cell.num b2)])).get c = r.get c := by
  simp only [Row.get]
  apply getCell_append
  simp only [derivedCols, List.mem_cons, List.not_mem_nil, or_false] at hc
  push_neg at hc
  intro kv hkv
  simp only [List.mem_cons, List.not_mem_nil, or_false] at hkv
  rcases hkv with rfl | rfl | rfl
  · exact fun he => hc.1 he.symm
  · exact fun he => hc.2.1 he.symm
  · exact fun he => hc.2.2 he.symm

/-- Claim C8: the Clusterer's only effect on the shared table is to
append the three derived cells (cluster id and the two projection
coordinates) to each row: row count is preserved, every augmented row
is its original cells plus exactly the three new pairs, reading any
non-derived column is unchanged, and the regression feature matrix
and target vector read from the augmented table are identical to
those read before the augmentation. -/
theorem claim8 (t : Table) (ls : List Nat) (ps : List (ℚ × ℚ))
    (h1 : ls.length = t.length) (h2 : ps.length = t.length) :
    (addClusterCols t ls ps).length = t.length ∧
    (∀ i, ∀ ha : i < (addClusterCols t ls ps).length, ∀ ht : i < t.length,
      ∀ hls : i < ls.length, ∀ hps : i < ps.length,
      ((addClusterCols t ls ps).get ⟨i, ha⟩).cells =
        (t.get ⟨i, ht⟩).cells ++
          [("cluster", Cell.num ((ls.get ⟨i, hls⟩ : Nat) : ℚ)),
           ("PC1", Cell.num (ps.get ⟨i, hps⟩).1),
           ("PC2", Cell.num (ps.get ⟨i, hps⟩).2)]) ∧
    (∀ c, c ∉ derivedCols →
      ∀ i, ∀ ha : i < (addClusterCols t ls ps).length, ∀ ht : i < t.length,
      ((addClusterCols t ls ps).get ⟨i, ha⟩).get c = (t.get ⟨i, ht⟩).get c) ∧
    Xof (addClusterCols t ls ps) = Xof t ∧
    yof (addClusterCols t ls ps) = yof t := by
  have hzl : (t.zip (ls.zip ps)).length = t.length := by
    rw [List.length_zip, List.length_zip, h1, h2, Nat.min_self, Nat.min_self]
  have hlen : (addClusterCols t ls ps).length = t.length := by
    simp only [addClusterCols, List.length_map]
    exact hzl
  refine ⟨hlen, ?_, ?_, ?_, ?_⟩
  · intro i ha ht hls hps
    simp only [addClusterCols, List.get_eq_getElem, List.getElem_map,
      List.getElem_zip]
  · intro c hc i ha ht
    simp only [addClusterCols, List.get_eq_getElem, List.getElem_map,
      List.getElem_zip]
    exact rowGet_append_derived _ _ _ _ c hc
  · apply List.ext_getElem
    · simp [Xof, hlen]
    · intro i hi1 hi2
      simp only [Xof, List.length_map] at hi1 hi2
      simp only [Xof, List.getElem_map, addClusterCols, List.getElem_zip]
      apply List.map_congr_left
      intro c hcf
      have hcd : c ∉ derivedCols := by fin_cases hcf <;> decide
      rw [rowGet_append_derived _ _ _ _ c hcd]
  · apply List.ext_getElem
    · simp [yof, hlen]
    · intro i hi1 hi2
      simp only [yof, List.length_map] at hi1 hi2
      simp only [yof, List.getElem_map, addClusterCols, List.getElem_zip]
      rw [rowGet_append_derived _ _ _ _ "war" (by decide)]

/-- Witness for C8 on the two retained rows of the three-row table:
the augmented table keeps both rows, a feature column reads unchanged
on the first row, and the feature matrix and target vector are
untouched. -/
theorem claim8_witness :
    (addClusterCols (prepare tableC2) [0, 1] [(1, 2), (3, 4)]).length =
      (prepare tableC2).length ∧
    ((addClusterCols (prepare tableC2) [0, 1] [(1, 2), (3, 4)]).get
        ⟨0, by decide⟩).get "on_base_percent" =
      ((prepare tableC2).get ⟨0, by decide⟩).get "on_base_percent" ∧
    Xof (addClusterCols (prepare tableC2) [0, 1] [(1, 2), (3, 4)]) =
      Xof (prepare tableC2) ∧
    yof (addClusterCols (prepare tableC2) [0, 1] [(1, 2), (3, 4)]) =
      yof (prepare tableC2) := by
  have h := claim8 (prepare tableC2) [0, 1] [(1, 2), (3, 4)] (by decide) (by decide)
  exact ⟨h.1, h.2.2.1 "on_base_percent" (by decide) 0 (by decide) (by decide),
    h.2.2.2.1, h.2.2.2.2⟩

/-! ## Lemmas about the Reporter (C9) -/

/-- Claim C9: the Reporter lists the distinct cluster ids in ascending
order, each exactly once (sorted, duplicate-free, and containing
exactly the ids present in the table), and for each id emits the
first five member rows in original row order (all members when fewer
than five), projected to the displayed identity and statistic
columns. -/
theorem claim9 (t : Table) :
    List.Sorted (· ≤ ·) (reportIds t) ∧
    (reportIds t).Nodup ∧
    (∀ c, c ∈ reportIds t ↔ c ∈ clusterValsOf t) ∧
    (∀ c, c ∈ clusterValsOf t → (reportIds t).count c = 1) ∧
    (report t).map Prod.fst = reportIds t ∧
    (∀ c, (c, sampleFor t c) ∈ report t ↔ c ∈ reportIds t) ∧
    (∀ c, sampleFor t c =
        ((membersRows t c).take 5).map
          (fun r => reportCols.map (fun n => (n, r.get n))) ∧
      ((membersRows t c).take 5).Sublist t ∧
      ((membersRows t c).take 5).length = min 5 (membersRows t c).length) := by
  have hperm : List.Perm (reportIds t) (clusterValsOf t).dedup :=
    List.perm_insertionSort _ _
  have hnd : (reportIds t).Nodup :=
    (hperm.nodup_iff).mpr (List.nodup_dedup _)
  refine ⟨List.sorted_insertionSort _ _, hnd, ?_, ?_, ?_, ?_, ?_⟩
  · intro c
    rw [hperm.mem_iff, List.mem_dedup]
  · intro c hc
    refine List.count_eq_one_of_mem hnd ?_
    rw [hperm.mem_iff, List.mem_dedup]
    exact hc
  · simp [report, Function.comp_def]
  · intro c
    constructor
    · intro hc
      simp only [report, List.mem_map, Prod.mk.injEq] at hc
      obtain ⟨a, ha, rfl, -⟩ := hc
      exact ha
    · intro hc
      simp only [report, List.mem_map]
      exact ⟨c, hc, rfl⟩
  · intro c
    refine ⟨rfl, ?_, ?_⟩
    · exact (List.take_sublist _ _).trans (List.filter_sublist t)
    · rw [List.length_take]

/-- Witness for C9 on the three-row clustered table with ids 1, 0, 1:
the report lists the ids 0 and 1 in ascending order, once each, and
the cluster-1 sample has its two member rows. -/
theorem claim9_witness :
    List.Sorted (· ≤ ·) (reportIds tableC9) ∧
    (reportIds tableC9).Nodup ∧
    ((1 : ℚ) ∈ reportIds tableC9 ↔ (1 : ℚ) ∈ clusterValsOf tableC9) ∧
    (reportIds tableC9).count 1 = 1 ∧
    (report tableC9).map Prod.fst = reportIds tableC9 ∧
    ((membersRows tableC9 1).take 5).length =
      min 5 (membersRows tableC9 1).length := by
  have h := claim9 tableC9
  exact ⟨h.1, h.2.1, h.2.2.1 1, h.2.2.2.1 1 (by decide), h.2.2.2.2.1,
    (h.2.2.2.2.2.2 1).2.2⟩

end MLB
